import Mathlib

/-!
Verification of the stock-correlation analytics engine
(`src/utils/calculations.ts`): scalar statistics, the time-series
aligner, and the correlation engine.

Modelling conventions (shallow embedding):
- A JavaScript `number` value that may be `NaN`, `Infinity`, `-Infinity`
  or a non-numeric placeholder is modelled by the inductive type `JNum`;
  finite numeric values carry an exact rational.  Floating-point
  arithmetic is idealised as exact rational arithmetic, with `Real.sqrt`
  for `Math.sqrt`.
- A `Record<string, T>` is modelled as an association list
  `List (String × T)` whose keys are in insertion order; JavaScript
  object keys are unique, so theorems that depend on key uniqueness
  take a `Nodup` hypothesis.
- Timestamps are modelled as `String` per the declared TypeScript type
  (`StockPrice.timestamp : string`); the defensive
  `typeof point.timestamp === "string"` and `point &&` guards in the
  source are vacuously true under this typing and are dropped.
- `Array.prototype.sort()` on the deduplicated timestamp set is modelled
  by `List.insertionSort strLe` after `List.dedup`: both produce the
  unique ascending enumeration of the distinct strings.
- All functions are total, mirroring the fact that the engine never
  throws on any input.
-/

namespace StockCorr

/-- A JavaScript `number` as the engine sees it: a finite numeric value
(exact rational), `NaN`, `Infinity`, `-Infinity`, or a non-numeric
placeholder (`undef`).  `typeof v === "number"` holds for all but
`undef`; `isFinite v` holds only for `num`. -/
inductive JNum where
  | num (q : ℚ)
  | nan
  | inf
  | ninf
  | undef
deriving DecidableEq

/-- `typeof v === "number" && isFinite(v)`: true exactly on finite
numeric values. -/
def jIsFin : JNum → Bool
  | .num _ => true
  | _ => false

/-- Extract the rational value of a finite number; `none` on anything
that the validity filter `typeof v === "number" && isFinite(v)` rejects. -/
def jToQ : JNum → Option ℚ
  | .num q => some q
  | _ => none

/-- One raw price point `{timestamp, price}` (source type `StockPrice`). -/
structure RawPoint where
  timestamp : String
  price : JNum
deriving DecidableEq

/-- `data[key]` on an object modelled as an association list: the first
entry with the given key, if any. -/
def jsLookup {α : Type} (data : List (String × α)) (key : String) : Option α :=
  (data.find? (fun kv => kv.1 == key)).map Prod.snd

/-- `calculateAverage` (calculations.ts, lines 75-90): drop invalid
entries, return 0 when nothing valid remains, else the arithmetic mean.
The filter `typeof num === "number" && isFinite(num)` together with the
use of the kept values as rationals is modelled by `List.filterMap jToQ`. -/
def calculateAverage (numbers : List JNum) : ℚ :=
  if numbers.length = 0 then 0
  else
    let validNumbers := numbers.filterMap jToQ
    if validNumbers.length = 0 then 0
    else validNumbers.sum / validNumbers.length

/-- `calculateStandardDeviation` (calculations.ts, lines 54-72):
population standard deviation of the cleaned sequence, 0 when nothing
valid remains.  The recursive calls pass the cleaned values back through
`calculateAverage`, as the source does. -/
noncomputable def calculateStandardDeviation (numbers : List JNum) : ℝ :=
  if numbers.length = 0 then 0
  else
    let validNumbers := numbers.filterMap jToQ
    if validNumbers.length = 0 then 0
    else
      let mean := calculateAverage (validNumbers.map JNum.num)
      let squaredDifferences := validNumbers.map (fun n => (n - mean) ^ 2)
      let variance := calculateAverage (squaredDifferences.map JNum.num)
      Real.sqrt (variance : ℝ)

/-- The valid index pairs of `calculatePearsonCorrelation` (lines 10-16):
positions where both elements are finite numbers, in order. -/
def pearsonValidPairs (x y : List JNum) : List (ℚ × ℚ) :=
  (x.zip y).filterMap (fun p =>
    match jToQ p.1, jToQ p.2 with
    | some a, some b => some (a, b)
    | _, _ => none)

/-- `numerator` of `calculatePearsonCorrelation` (lines 28-39):
`Σ (xᵢ - meanX) * (yᵢ - meanY)` over the valid pairs. -/
def pearsonNumerator (x y : List JNum) : ℚ :=
  let validPairs := pearsonValidPairs x y
  let meanX := calculateAverage ((validPairs.map Prod.fst).map JNum.num)
  let meanY := calculateAverage ((validPairs.map Prod.snd).map JNum.num)
  (validPairs.map (fun p => (p.1 - meanX) * (p.2 - meanY))).sum

/-- `sumSquaredX` of `calculatePearsonCorrelation`: `Σ (xᵢ - meanX)²`
over the valid pairs. -/
def pearsonSumSquaredX (x y : List JNum) : ℚ :=
  let validPairs := pearsonValidPairs x y
  let meanX := calculateAverage ((validPairs.map Prod.fst).map JNum.num)
  ((validPairs.map Prod.fst).map (fun a => (a - meanX) ^ 2)).sum

/-- `sumSquaredY` of `calculatePearsonCorrelation`: `Σ (yᵢ - meanY)²`
over the valid pairs. -/
def pearsonSumSquaredY (x y : List JNum) : ℚ :=
  let validPairs := pearsonValidPairs x y
  let meanY := calculateAverage ((validPairs.map Prod.snd).map JNum.num)
  ((validPairs.map Prod.snd).map (fun b => (b - meanY) ^ 2)).sum

/-- `calculatePearsonCorrelation` (calculations.ts, lines 4-51): guard on
mismatched or empty inputs, filter to valid pairs, guard on fewer than 2
pairs, guard on a zero denominator, else the correlation clamped to
`[-1, 1]`. -/
noncomputable def calculatePearsonCorrelation (x y : List JNum) : ℝ :=
  if x.length ≠ y.length ∨ x.length = 0 then 0
  else if (pearsonValidPairs x y).length < 2 then 0
  else
    let denominator :=
      Real.sqrt ((pearsonSumSquaredX x y * pearsonSumSquaredY x y : ℚ) : ℝ)
    if denominator = 0 then 0
    else max (-1) (min 1 ((pearsonNumerator x y : ℚ) / denominator))

/-- Lexicographic comparison of character lists by code point, the
order `Array.prototype.sort()` uses on strings (UTF-16 code units). -/
def lexLe : List Char → List Char → Bool
  | [], _ => true
  | _ :: _, [] => false
  | a :: as, b :: bs => if a < b then true else if b < a then false else lexLe as bs

/-- The string order of the default JavaScript sort comparator. -/
def strLe (a b : String) : Prop := lexLe a.data b.data = true

instance : DecidableRel strLe :=
  fun a b => inferInstanceAs (Decidable (lexLe a.data b.data = true))

/-- The `sortedTimestamps` of `alignStockData` (lines 98-105): the
deduplicated union of every timestamp seen across all tickers, sorted. -/
def alignUnionTimestamps (stocksData : List (String × List RawPoint)) :
    List String :=
  (((stocksData.map (fun kv => kv.2.map RawPoint.timestamp)).flatten).dedup).insertionSort strLe

/-- One ticker output vector of `alignStockData` (lines 110-120): scan
the sorted union; whenever the ticker has a point at the timestamp,
append the price of its first such point, else append nothing. -/
def alignRow (stocksData : List (String × List RawPoint))
    (series : List RawPoint) : List JNum :=
  (alignUnionTimestamps stocksData).filterMap (fun ts =>
    (series.find? (fun p => p.timestamp == ts)).map RawPoint.price)

/-- `alignStockData` (calculations.ts, lines 93-130), union mode: build
the sorted union of all timestamps; for each ticker append the price of
its first point matching each union timestamp (skipping timestamps it
lacks, with no price validity filtering); finally drop tickers whose
vector has fewer than 2 entries. -/
def alignStockData (stocksData : List (String × List RawPoint)) :
    List (String × List JNum) :=
  if stocksData.length = 0 then []
  else
    let alignedData := stocksData.map (fun kv => (kv.1, alignRow stocksData kv.2))
    alignedData.filter (fun kv => !decide (kv.2.length < 2))

/-- The `commonTimestamps` computed by `calculateCorrelationMatrix`
(lines 150-169), intersection mode: distinct timestamps seen anywhere,
kept only if every ticker has some point at that timestamp with a finite
numeric price, sorted ascending. -/
def commonTimestamps (data : List (String × List RawPoint)) : List String :=
  let tickers := data.map Prod.fst
  let allTimestamps :=
    ((data.map (fun kv => kv.2.map RawPoint.timestamp)).flatten).dedup
  (allTimestamps.filter (fun ts =>
    tickers.all (fun ticker =>
      match jsLookup data ticker with
      | some series => series.any (fun p => p.timestamp == ts && jIsFin p.price)
      | none => false))).insertionSort strLe

/-- One ticker row of the aligned data of `calculateCorrelationMatrix`
(lines 180-186): for each common timestamp take the first matching
point of that ticker, substituting the number 0 when the lookup fails,
then keep only finite numeric prices. -/
def alignedVector (data : List (String × List RawPoint))
    (common : List String) (ticker : String) : List JNum :=
  (common.map (fun ts =>
    match ((jsLookup data ticker).getD []).find? (fun p => p.timestamp == ts) with
    | some point => point.price
    | none => JNum.num 0)).filter jIsFin

/-- The result record of `calculateCorrelationMatrix`:
`{matrix, standardDeviations, dataPoints}`. -/
structure CorrelationResult where
  matrix : List (List ℝ)
  standardDeviations : List (String × ℝ)
  dataPoints : Nat
deriving Inhabited

/-- `calculateCorrelationMatrix` (calculations.ts, lines 133-217):
empty result on an empty ticker set or fewer than 2 common timestamps;
otherwise standard deviations for every ticker over its aligned vector,
and the full pairwise matrix with an exact 1 on the diagonal. -/
noncomputable def calculateCorrelationMatrix
    (data : List (String × List RawPoint)) : CorrelationResult :=
  let tickers := data.map Prod.fst
  if tickers.length = 0 then ⟨[], [], 0⟩
  else
    let common := commonTimestamps data
    if common.length < 2 then ⟨[], [], 0⟩
    else
      let alignedData := tickers.map (fun t => (t, alignedVector data common t))
      let standardDeviations := tickers.map (fun t =>
        (t, calculateStandardDeviation ((jsLookup alignedData t).getD [])))
      let matrix := (List.range tickers.length).map (fun i =>
        (List.range tickers.length).map (fun j =>
          if i = j then (1 : ℝ)
          else calculatePearsonCorrelation
            ((jsLookup alignedData (tickers.getD i "")).getD [])
            ((jsLookup alignedData (tickers.getD j "")).getD [])))
      ⟨matrix, standardDeviations, common.length⟩

/-! ### Concrete inputs used by witnesses and counterexamples -/

/-- Two tickers fully aligned on two timestamps. -/
def twoTickerData : List (String × List RawPoint) :=
  [("A", [⟨"t1", .num 1⟩, ⟨"t2", .num 2⟩]),
   ("B", [⟨"t1", .num 3⟩, ⟨"t2", .num 4⟩])]

/-- Two overlapping tickers plus one ticker with no timestamp overlap. -/
def noOverlapData : List (String × List RawPoint) :=
  [("A", [⟨"t1", .num 1⟩, ⟨"t2", .num 2⟩]),
   ("B", [⟨"t1", .num 3⟩, ⟨"t2", .num 4⟩]),
   ("C", [⟨"t3", .num 5⟩, ⟨"t4", .num 6⟩])]

/-- Ticker A has two points at timestamp t1; the first has a `NaN` price,
the second a finite one. -/
def dupTimestampData : List (String × List RawPoint) :=
  [("A", [⟨"t1", .nan⟩, ⟨"t1", .num 1⟩, ⟨"t2", .num 2⟩]),
   ("B", [⟨"t1", .num 5⟩, ⟨"t2", .num 6⟩])]

/-- A single ticker with a `NaN` price at its first timestamp. -/
def nanPriceData : List (String × List RawPoint) :=
  [("A", [⟨"t1", .nan⟩, ⟨"t2", .num 1⟩])]

/-- The standard-deviation test vector of the spec. -/
def sdCheckVector : List JNum :=
  [.num 2, .num 4, .num 4, .num 4, .num 5, .num 5, .num 7, .num 9]

/-! ### Basic lemmas -/

lemma filterMap_jToQ_map_num (l : List ℚ) :
    (l.map JNum.num).filterMap jToQ = l := by
  rw [List.filterMap_map]
  have h : (jToQ ∘ JNum.num) = some := funext fun _ => rfl
  rw [h, List.filterMap_some]

lemma calculateAverage_map_num (l : List ℚ) :
    calculateAverage (l.map JNum.num) =
      if l.length = 0 then 0 else l.sum / l.length := by
  unfold calculateAverage
  rw [filterMap_jToQ_map_num, List.length_map]
  by_cases h : l.length = 0 <;> simp [h]

/-- The definitional case analysis of `calculatePearsonCorrelation`. -/
lemma pearson_def_cases (x y : List JNum) :
    calculatePearsonCorrelation x y =
      if x.length ≠ y.length ∨ x.length = 0 then 0
      else if (pearsonValidPairs x y).length < 2 then 0
      else if Real.sqrt ((pearsonSumSquaredX x y * pearsonSumSquaredY x y : ℚ) : ℝ) = 0 then 0
      else max (-1) (min 1 ((pearsonNumerator x y : ℚ) /
        Real.sqrt ((pearsonSumSquaredX x y * pearsonSumSquaredY x y : ℚ) : ℝ))) := rfl

lemma pearsonValidPairs_length_le (x y : List JNum) :
    (pearsonValidPairs x y).length ≤ x.length := by
  calc (pearsonValidPairs x y).length ≤ (x.zip y).length :=
        List.length_filterMap_le _ _
    _ ≤ x.length := by rw [List.length_zip]; exact min_le_left _ _

lemma clamp_mem_Icc (r : ℝ) :
    -1 ≤ max (-1) (min 1 r) ∧ max (-1) (min 1 r) ≤ 1 :=
  ⟨le_max_left _ _, max_le (by norm_num) (min_le_left _ _)⟩

/-! ### Claim C10 -/

/-- C10: for inputs of different lengths, or an empty input on either
side, `calculatePearsonCorrelation` returns 0 (and, being a total
function, never raises). -/
theorem pearson_mismatch_zero (x y : List JNum)
    (h : x.length ≠ y.length ∨ x = [] ∨ y = []) :
    calculatePearsonCorrelation x y = 0 := by
  rw [pearson_def_cases]
  have hcond : x.length ≠ y.length ∨ x.length = 0 := by
    rcases h with h | h | h
    · exact Or.inl h
    · exact Or.inr (by simp [h])
    · by_cases hxy : x.length = y.length
      · exact Or.inr (by simp [hxy, h])
      · exact Or.inl hxy
  rw [if_pos hcond]

theorem pearson_mismatch_zero_witness :
    calculatePearsonCorrelation [JNum.num 1] [] = 0 :=
  pearson_mismatch_zero [JNum.num 1] [] (Or.inr (Or.inr rfl))

/-! ### Claim C4 -/

/-- C4: with equal-length inputs, `calculatePearsonCorrelation` returns 0
when fewer than 2 valid pairs survive the finiteness filter or when the
denominator `sqrt(Σdx² · Σdy²)` is exactly 0; otherwise it returns the
correlation clamped to `[-1, 1]`; in every case the result lies in
`[-1, 1]`. -/
theorem pearson_guards_and_range (x y : List JNum) (h : x.length = y.length) :
    ((pearsonValidPairs x y).length < 2 → calculatePearsonCorrelation x y = 0) ∧
    (Real.sqrt ((pearsonSumSquaredX x y * pearsonSumSquaredY x y : ℚ) : ℝ) = 0 →
      calculatePearsonCorrelation x y = 0) ∧
    (2 ≤ (pearsonValidPairs x y).length →
      Real.sqrt ((pearsonSumSquaredX x y * pearsonSumSquaredY x y : ℚ) : ℝ) ≠ 0 →
      calculatePearsonCorrelation x y =
        max (-1) (min 1 ((pearsonNumerator x y : ℚ) /
          Real.sqrt ((pearsonSumSquaredX x y * pearsonSumSquaredY x y : ℚ) : ℝ)))) ∧
    (-1 ≤ calculatePearsonCorrelation x y ∧ calculatePearsonCorrelation x y ≤ 1) := by
  rw [pearson_def_cases]
  by_cases hx0 : x.length = 0
  · have hvp : (pearsonValidPairs x y).length = 0 :=
      Nat.le_zero.mp (hx0 ▸ pearsonValidPairs_length_le x y)
    rw [if_pos (Or.inr hx0)]
    refine ⟨fun _ => rfl, fun _ => rfl, fun h2 _ => absurd h2 (by omega), by norm_num⟩
  · rw [if_neg (by push_neg; exact ⟨h, hx0⟩)]
    by_cases h2 : (pearsonValidPairs x y).length < 2
    · rw [if_pos h2]
      exact ⟨fun _ => rfl, fun _ => rfl, fun hge _ => absurd hge (by omega), by norm_num⟩
    · rw [if_neg h2]
      by_cases hden :
          Real.sqrt ((pearsonSumSquaredX x y * pearsonSumSquaredY x y : ℚ) : ℝ) = 0
      · rw [if_pos hden]
        exact ⟨fun hlt => absurd hlt h2, fun _ => rfl, fun _ hne => absurd hden hne,
          by norm_num⟩
      · rw [if_neg hden]
        exact ⟨fun hlt => absurd hlt h2, fun he => absurd he hden, fun _ _ => rfl,
          clamp_mem_Icc _⟩

theorem pearson_guards_and_range_witness :
    -1 ≤ calculatePearsonCorrelation [JNum.num 0, JNum.num 1] [JNum.num 0, JNum.num 1] ∧
    calculatePearsonCorrelation [JNum.num 0, JNum.num 1] [JNum.num 0, JNum.num 1] ≤ 1 :=
  (pearson_guards_and_range [JNum.num 0, JNum.num 1] [JNum.num 0, JNum.num 1] rfl).2.2.2

/-! ### Symmetry of the Pearson computation -/

lemma pearsonValidPairs_swap (x y : List JNum) :
    pearsonValidPairs y x = (pearsonValidPairs x y).map Prod.swap := by
  unfold pearsonValidPairs
  rw [← List.zip_swap x y, List.filterMap_map, List.map_filterMap]
  refine List.filterMap_congr fun p _ => ?_
  rcases p with ⟨a, b⟩
  cases ha : jToQ a <;> cases hb : jToQ b <;>
    simp [Function.comp, Prod.swap, ha, hb]

lemma fst_comp_swap : (Prod.fst ∘ Prod.swap : ℚ × ℚ → ℚ) = Prod.snd := rfl

lemma snd_comp_swap : (Prod.snd ∘ Prod.swap : ℚ × ℚ → ℚ) = Prod.fst := rfl

lemma pearsonNumerator_swap (x y : List JNum) :
    pearsonNumerator y x = pearsonNumerator x y := by
  unfold pearsonNumerator
  rw [pearsonValidPairs_swap]
  simp only [List.map_map, fst_comp_swap, snd_comp_swap]
  congr 1
  refine List.map_congr_left fun p _ => ?_
  rcases p with ⟨a, b⟩
  simp only [Function.comp, Prod.swap, Prod.fst, Prod.snd]
  ring

lemma pearsonSumSquaredX_swap (x y : List JNum) :
    pearsonSumSquaredX y x = pearsonSumSquaredY x y := by
  unfold pearsonSumSquaredX pearsonSumSquaredY
  rw [pearsonValidPairs_swap]
  simp only [List.map_map, fst_comp_swap]

lemma pearsonSumSquaredY_swap (x y : List JNum) :
    pearsonSumSquaredY y x = pearsonSumSquaredX x y := by
  unfold pearsonSumSquaredX pearsonSumSquaredY
  rw [pearsonValidPairs_swap]
  simp only [List.map_map, snd_comp_swap]

lemma pearson_comm (x y : List JNum) :
    calculatePearsonCorrelation x y = calculatePearsonCorrelation y x := by
  rw [pearson_def_cases, pearson_def_cases]
  have hv : (pearsonValidPairs y x).length = (pearsonValidPairs x y).length := by
    rw [pearsonValidPairs_swap, List.length_map]
  have hd : (pearsonSumSquaredX y x * pearsonSumSquaredY y x : ℚ) =
      pearsonSumSquaredX x y * pearsonSumSquaredY x y := by
    rw [pearsonSumSquaredX_swap x y, pearsonSumSquaredY_swap x y]
    ring
  have hn : pearsonNumerator y x = pearsonNumerator x y := pearsonNumerator_swap x y
  rw [hv, hd, hn]
  exact if_congr (by omega) rfl rfl

/-- `getD` through a map over `List.range`. -/
lemma getD_range_map {α : Type} (n k : ℕ) (f : ℕ → α) (d : α) :
    ((List.range n).map f).getD k d = if k < n then f k else d := by
  rw [List.getD_eq_getElem?_getD, List.getElem?_map]
  by_cases hk : k < n
  · rw [List.getElem?_range hk]
    simp [hk]
  · rw [List.getElem?_eq_none (by simpa using Nat.le_of_not_lt hk)]
    simp [hk]

/-! ### Claim C5 -/

/-- C5: the returned matrix is symmetric entry-for-entry, even though the
two off-diagonal mirror entries come from two separate calls of
`calculatePearsonCorrelation` with swapped arguments (entries are read
with `getD`, with out-of-range defaults matching on both sides). -/
theorem correlationMatrix_symm (data : List (String × List RawPoint)) (i j : ℕ) :
    (((calculateCorrelationMatrix data).matrix.getD i []).getD j 0) =
    (((calculateCorrelationMatrix data).matrix.getD j []).getD i 0) := by
  unfold calculateCorrelationMatrix
  by_cases h0 : (data.map Prod.fst).length = 0
  · simp [h0, List.getD]
  · rw [if_neg h0]
    by_cases hc : (commonTimestamps data).length < 2
    · simp [hc, List.getD]
    · rw [if_neg hc]
      simp only
      rw [getD_range_map, getD_range_map]
      by_cases hi : i < (data.map Prod.fst).length <;>
        by_cases hj : j < (data.map Prod.fst).length
      · rw [if_pos hi, if_pos hj, getD_range_map, getD_range_map, if_pos hj, if_pos hi]
        by_cases hij : i = j
        · rw [if_pos hij, if_pos hij.symm]
        · rw [if_neg hij, if_neg (Ne.symm hij)]
          exact pearson_comm _ _
      · rw [if_pos hi, if_neg hj, getD_range_map, if_neg hj]
        simp [List.getD]
      · rw [if_neg hi, if_pos hj, getD_range_map, if_neg hi]
        simp [List.getD]
      · rw [if_neg hi, if_neg hj]
        simp [List.getD]

/-! ### Claim C6 -/

/-- C6: every diagonal entry of the returned matrix is exactly 1; the
diagonal is assigned the constant 1 rather than computed by the Pearson
formula. -/
theorem correlationMatrix_diag_one (data : List (String × List RawPoint)) (i : ℕ)
    (hi : i < (calculateCorrelationMatrix data).matrix.length) :
    (((calculateCorrelationMatrix data).matrix.getD i []).getD i 0) = 1 := by
  unfold calculateCorrelationMatrix at hi ⊢
  by_cases h0 : (data.map Prod.fst).length = 0
  · rw [if_pos h0] at hi
    exact absurd hi (by simp)
  · rw [if_neg h0] at hi ⊢
    by_cases hc : (commonTimestamps data).length < 2
    · rw [if_pos hc] at hi
      exact absurd hi (by simp)
    · rw [if_neg hc] at hi ⊢
      have hi2 : i < (List.map Prod.fst data).length := by simpa using hi
      simp only
      rw [getD_range_map, if_pos hi2, getD_range_map, if_pos hi2, if_pos rfl]

theorem correlationMatrix_diag_one_witness :
    0 < (calculateCorrelationMatrix twoTickerData).matrix.length ∧
    (((calculateCorrelationMatrix twoTickerData).matrix.getD 0 []).getD 0 0) = 1 :=
  ⟨by decide, correlationMatrix_diag_one twoTickerData 0 (by decide)⟩

/-! ### Common-timestamp characterization (claims C1, C2, C3) -/

lemma jsLookup_nodup {α : Type} (data : List (String × α))
    (hnd : (data.map Prod.fst).Nodup) (kv : String × α) (hkv : kv ∈ data) :
    jsLookup data kv.1 = some kv.2 := by
  induction data with
  | nil => cases hkv
  | cons head tail ih =>
    rw [List.map_cons, List.nodup_cons] at hnd
    rcases List.mem_cons.mp hkv with rfl | htail
    · unfold jsLookup
      rw [List.find?_cons_of_pos _ (by simp)]
      rfl
    · unfold jsLookup
      rw [List.find?_cons_of_neg]
      · exact ih hnd.2 htail
      · simp only [beq_iff_eq]
        intro he
        exact hnd.1 (he ▸ List.mem_map_of_mem Prod.fst htail)

lemma commonTimestamps_nil : commonTimestamps [] = [] := rfl

/-- Membership in `commonTimestamps`: a timestamp is common exactly when
it occurs somewhere and every ticker has a point at it with a finite
numeric price. -/
lemma commonTimestamps_mem (data : List (String × List RawPoint))
    (hnd : (data.map Prod.fst).Nodup) (ts : String) :
    ts ∈ commonTimestamps data ↔
      (∃ kv ∈ data, ∃ p ∈ kv.2, p.timestamp = ts) ∧
      (∀ kv ∈ data, ∃ p ∈ kv.2, p.timestamp = ts ∧ jIsFin p.price = true) := by
  simp only [commonTimestamps]
  rw [(List.perm_insertionSort strLe _).mem_iff, List.mem_filter, List.mem_dedup,
    List.mem_flatten]
  constructor
  · rintro ⟨⟨l, hl, hts⟩, hall⟩
    constructor
    · obtain ⟨kv, hkv, rfl⟩ := List.mem_map.mp hl
      obtain ⟨p, hp, hpt⟩ := List.mem_map.mp hts
      exact ⟨kv, hkv, p, hp, hpt⟩
    · intro kv hkv
      have h1 := List.all_eq_true.mp hall kv.1 (List.mem_map_of_mem Prod.fst hkv)
      simp only [jsLookup_nodup data hnd kv hkv] at h1
      obtain ⟨p, hp, hcond⟩ := List.any_eq_true.mp h1
      rw [Bool.and_eq_true, beq_iff_eq] at hcond
      exact ⟨p, hp, hcond.1, hcond.2⟩
  · rintro ⟨⟨kv, hkv, p, hp, hpt⟩, hall⟩
    refine ⟨⟨kv.2.map RawPoint.timestamp, List.mem_map_of_mem _ hkv,
      hpt ▸ List.mem_map_of_mem RawPoint.timestamp hp⟩, ?_⟩
    rw [List.all_eq_true]
    intro t ht
    obtain ⟨kv2, hkv2, rfl⟩ := List.mem_map.mp ht
    simp only [jsLookup_nodup data hnd kv2 hkv2]
    obtain ⟨q, hq, hqt, hqf⟩ := hall kv2 hkv2
    exact List.any_eq_true.mpr ⟨q, hq, by rw [Bool.and_eq_true, beq_iff_eq]; exact ⟨hqt, hqf⟩⟩

/-! ### Claim C2 -/

/-- C2: an empty ticker mapping, or fewer than 2 common timestamps
(timestamps at which every ticker has a point with a finite numeric
price), yields exactly `{matrix: [], standardDeviations: {}, dataPoints: 0}`;
otherwise `dataPoints` is the common-timestamp count.  Totality of the
embedded function mirrors the absence of any exception path. -/
theorem correlationMatrix_empty_cases (data : List (String × List RawPoint))
    (hnd : (data.map Prod.fst).Nodup) :
    (data = [] → calculateCorrelationMatrix data = ⟨[], [], 0⟩) ∧
    ((commonTimestamps data).length < 2 →
      calculateCorrelationMatrix data = ⟨[], [], 0⟩) ∧
    (2 ≤ (commonTimestamps data).length →
      (calculateCorrelationMatrix data).dataPoints = (commonTimestamps data).length) ∧
    (∀ ts, ts ∈ commonTimestamps data ↔
      (∃ kv ∈ data, ∃ p ∈ kv.2, p.timestamp = ts) ∧
      (∀ kv ∈ data, ∃ p ∈ kv.2, p.timestamp = ts ∧ jIsFin p.price = true)) := by
  refine ⟨?_, ?_, ?_, commonTimestamps_mem data hnd⟩
  · rintro rfl
    rfl
  · intro h
    unfold calculateCorrelationMatrix
    by_cases h0 : (data.map Prod.fst).length = 0
    · rw [if_pos h0]
    · rw [if_neg h0, if_pos h]
  · intro h
    unfold calculateCorrelationMatrix
    have h0 : (data.map Prod.fst).length ≠ 0 := by
      intro h0
      have : data = [] := by simpa using h0
      rw [this, commonTimestamps_nil] at h
      simp at h
    rw [if_neg h0, if_neg (by omega)]

theorem correlationMatrix_empty_cases_witness :
    (twoTickerData.map Prod.fst).Nodup ∧
    2 ≤ (commonTimestamps twoTickerData).length ∧
    (calculateCorrelationMatrix twoTickerData).dataPoints =
      (commonTimestamps twoTickerData).length :=
  ⟨by decide, by decide,
    (correlationMatrix_empty_cases twoTickerData (by decide)).2.2.1 (by decide)⟩

lemma map_fst_map_pair {α β : Type} (l : List α) (g : α → β) :
    (l.map (fun t => (t, g t))).map Prod.fst = l := by
  rw [List.map_map]
  have h : (Prod.fst ∘ fun t => (t, g t)) = id := funext fun _ => rfl
  rw [h, List.map_id]

/-! ### Claim C1 -/

/-- C1 counterexample: with one ticker (C) sharing no timestamp with the
others, `calculateCorrelationMatrix` returns the fully empty result —
C is not "alone absent" while A and B are retained with `dataPoints = 2`,
as the claim asserts; instead every ticker is dropped and
`dataPoints = 0`. -/
theorem noOverlap_empties_whole_result :
    calculateCorrelationMatrix noOverlapData = ⟨[], [], 0⟩ ∧
    (calculateCorrelationMatrix noOverlapData).dataPoints ≠ 2 :=
  ⟨rfl, by decide⟩

/-- C1 amended: `calculateCorrelationMatrix` never drops tickers
selectively.  When fewer than 2 common timestamps exist the whole result
is empty; otherwise `standardDeviations` lists every input ticker in
order and the matrix is square of size equal to the full input ticker
count. -/
theorem correlationMatrix_all_or_nothing (data : List (String × List RawPoint)) :
    ((calculateCorrelationMatrix data).standardDeviations.map Prod.fst =
      if 2 ≤ (commonTimestamps data).length then data.map Prod.fst else []) ∧
    ((calculateCorrelationMatrix data).matrix.length =
      if 2 ≤ (commonTimestamps data).length then data.length else 0) ∧
    (∀ i, ((calculateCorrelationMatrix data).matrix.getD i []).length =
      if i < (calculateCorrelationMatrix data).matrix.length then data.length else 0) := by
  unfold calculateCorrelationMatrix
  by_cases h0 : (data.map Prod.fst).length = 0
  · have hdata : data = [] := by simpa using h0
    subst hdata
    rw [commonTimestamps_nil]
    refine ⟨by simp, by simp, ?_⟩
    intro i
    simp [List.getD]
  · rw [if_neg h0]
    by_cases hc : (commonTimestamps data).length < 2
    · rw [if_pos hc, if_neg (by omega), if_neg (by omega)]
      refine ⟨rfl, rfl, ?_⟩
      intro i
      simp [List.getD]
    · rw [if_neg hc, if_pos (by omega), if_pos (by omega)]
      refine ⟨?_, ?_, ?_⟩
      · exact map_fst_map_pair (data.map Prod.fst) _
      · simp
      · intro i
        simp only [List.length_map, List.length_range]
        rw [getD_range_map]
        by_cases hi : i < data.length
        · rw [if_pos (by simpa using hi), if_pos (by simpa using hi)]
          simp
        · rw [if_neg (by simpa using hi), if_neg (by simpa using hi)]
          rfl

/-! ### Claim C3 -/

/-- For a common timestamp, every ticker's `find?` lookup succeeds: the
0-substitution branch of step 3 is unreachable. -/
lemma find?_isSome_of_common (data : List (String × List RawPoint))
    (ticker : String) (hmem : ticker ∈ data.map Prod.fst)
    (ts : String) (hts : ts ∈ commonTimestamps data) :
    (((jsLookup data ticker).getD []).find?
      (fun p => p.timestamp == ts)).isSome = true := by
  simp only [commonTimestamps] at hts
  rw [(List.perm_insertionSort strLe _).mem_iff, List.mem_filter] at hts
  have h1 := List.all_eq_true.mp hts.2 ticker hmem
  cases hjs : jsLookup data ticker with
  | none => rw [hjs] at h1; simp at h1
  | some series =>
    rw [hjs] at h1
    simp only at h1
    obtain ⟨p, hp, hcond⟩ := List.any_eq_true.mp h1
    rw [Bool.and_eq_true, beq_iff_eq] at hcond
    rw [Option.getD_some]
    exact List.find?_isSome.mpr ⟨p, hp, by rw [beq_iff_eq]; exact hcond.1⟩

/-- C3 counterexample: with duplicate timestamps whose first occurrence
has a non-finite price, the aligned vector of ticker A has length 1
while `dataPoints = 2` — so "length exactly `dataPoints`" fails even
though step 2 succeeded. -/
theorem dupTimestamp_vector_shorter :
    (calculateCorrelationMatrix dupTimestampData).dataPoints = 2 ∧
    (alignedVector dupTimestampData (commonTimestamps dupTimestampData) "A").length = 1 :=
  ⟨rfl, by decide⟩

/-- C3 amended: given step 2 succeeded, the per-ticker lookup never
fails (the 0.0-substitution branch is unreachable), and each aligned
vector has length at most `dataPoints`, with equality whenever the first
matching point at each common timestamp has a finite price (duplicate
timestamps with a non-finite first occurrence can make it shorter). -/
theorem alignedVector_length_spec (data : List (String × List RawPoint))
    (ticker : String) (h2 : 2 ≤ (commonTimestamps data).length)
    (hmem : ticker ∈ data.map Prod.fst) :
    (∀ ts ∈ commonTimestamps data,
      (((jsLookup data ticker).getD []).find?
        (fun p => p.timestamp == ts)).isSome = true) ∧
    (alignedVector data (commonTimestamps data) ticker).length ≤
      (commonTimestamps data).length ∧
    ((∀ ts ∈ commonTimestamps data, ∀ p,
        ((jsLookup data ticker).getD []).find? (fun q => q.timestamp == ts) = some p →
        jIsFin p.price = true) →
      (alignedVector data (commonTimestamps data) ticker).length =
        (commonTimestamps data).length) := by
  refine ⟨fun ts hts => find?_isSome_of_common data ticker hmem ts hts, ?_, ?_⟩
  · calc (alignedVector data (commonTimestamps data) ticker).length
        ≤ ((commonTimestamps data).map _).length := List.length_filter_le _ _
      _ = (commonTimestamps data).length := List.length_map _ _
  · intro hfin
    unfold alignedVector
    rw [List.filter_eq_self.mpr, List.length_map]
    intro v hv
    obtain ⟨ts, hts, hvts⟩ := List.mem_map.mp hv
    cases hfind : ((jsLookup data ticker).getD []).find? (fun q => q.timestamp == ts) with
    | none => rw [hfind] at hvts; simp only at hvts; rw [← hvts]; rfl
    | some p =>
      rw [hfind] at hvts
      simp only at hvts
      rw [← hvts]
      exact hfin ts hts p hfind

theorem alignedVector_length_spec_witness :
    2 ≤ (commonTimestamps twoTickerData).length ∧
    "A" ∈ twoTickerData.map Prod.fst ∧
    (alignedVector twoTickerData (commonTimestamps twoTickerData) "A").length ≤
      (commonTimestamps twoTickerData).length :=
  ⟨by decide, by decide,
    (alignedVector_length_spec twoTickerData "A" (by decide) (by decide)).2.1⟩

/-! ### Claim C7 -/

/-- The definitional case analysis of `calculateStandardDeviation`. -/
lemma stddev_def_cases (numbers : List JNum) :
    calculateStandardDeviation numbers =
      if numbers.length = 0 then 0
      else if (numbers.filterMap jToQ).length = 0 then 0
      else Real.sqrt ((calculateAverage
        (((numbers.filterMap jToQ).map (fun n =>
          (n - calculateAverage ((numbers.filterMap jToQ).map JNum.num)) ^ 2)).map
            JNum.num) : ℚ) : ℝ) := rfl

/-- C7: `calculateStandardDeviation` drops invalid entries, returns 0
when nothing valid remains, and otherwise returns the population
standard deviation `sqrt(Σ(x - mean x)² / N)` with division by `N`, the
cleaned length; on the vector `[2,4,4,4,5,5,7,9]` it returns exactly 2. -/
theorem stddev_population_formula (numbers : List JNum) :
    (numbers.filterMap jToQ = [] → calculateStandardDeviation numbers = 0) ∧
    (numbers.filterMap jToQ ≠ [] →
      calculateStandardDeviation numbers =
        Real.sqrt ((((numbers.filterMap jToQ).map (fun q =>
            (q - (numbers.filterMap jToQ).sum / (numbers.filterMap jToQ).length) ^ 2)).sum /
          ((numbers.filterMap jToQ).length : ℚ) : ℚ) : ℝ)) ∧
    calculateStandardDeviation sdCheckVector = 2 := by
  have hgen : ∀ l : List JNum, l.filterMap jToQ ≠ [] →
      calculateStandardDeviation l =
        Real.sqrt ((((l.filterMap jToQ).map (fun q =>
            (q - (l.filterMap jToQ).sum / (l.filterMap jToQ).length) ^ 2)).sum /
          ((l.filterMap jToQ).length : ℚ) : ℚ) : ℝ) := by
    intro l hne
    have hvlen : (l.filterMap jToQ).length ≠ 0 := by
      simpa [List.length_eq_zero] using hne
    have hllen : l.length ≠ 0 := by
      intro h0
      rw [List.length_eq_zero.mp h0] at hne
      exact hne rfl
    rw [stddev_def_cases, if_neg hllen, if_neg hvlen, calculateAverage_map_num,
      calculateAverage_map_num, List.length_map]
    rw [if_neg hvlen, if_neg hvlen]
  refine ⟨?_, hgen numbers, ?_⟩
  · intro h
    rw [stddev_def_cases]
    by_cases h0 : numbers.length = 0
    · rw [if_pos h0]
    · rw [if_neg h0, if_pos (by rw [h]; rfl)]
  · rw [hgen sdCheckVector (by decide)]
    have hv : sdCheckVector.filterMap jToQ = [2, 4, 4, 4, 5, 5, 7, 9] := rfl
    have hq : (((sdCheckVector.filterMap jToQ).map (fun q =>
        (q - (sdCheckVector.filterMap jToQ).sum /
          (sdCheckVector.filterMap jToQ).length) ^ 2)).sum /
        ((sdCheckVector.filterMap jToQ).length : ℚ) : ℚ) = 4 := by
      rw [hv]
      simp only [List.map_cons, List.map_nil, List.sum_cons, List.sum_nil,
        List.length_cons, List.length_nil]
      norm_num
    rw [hq]
    rw [show ((4 : ℚ) : ℝ) = 4 by norm_num,
      show (4 : ℝ) = 2 ^ 2 by norm_num,
      Real.sqrt_sq (by norm_num : (0 : ℝ) ≤ 2)]

theorem stddev_population_formula_witness :
    sdCheckVector.filterMap jToQ ≠ [] ∧
    calculateStandardDeviation sdCheckVector =
      Real.sqrt ((((sdCheckVector.filterMap jToQ).map (fun q =>
          (q - (sdCheckVector.filterMap jToQ).sum /
            (sdCheckVector.filterMap jToQ).length) ^ 2)).sum /
        ((sdCheckVector.filterMap jToQ).length : ℚ) : ℚ) : ℝ) :=
  ⟨by decide, (stddev_population_formula sdCheckVector).2.1 (by decide)⟩

/-! ### Claim C8 -/

lemma lexLe_total : ∀ as bs : List Char, lexLe as bs = true ∨ lexLe bs as = true
  | [], _ => Or.inl rfl
  | _ :: _, [] => Or.inr rfl
  | a :: as, b :: bs => by
    rcases lt_trichotomy a b with h | h | h
    · left
      simp [lexLe, h]
    · subst h
      rcases lexLe_total as bs with ih | ih
      · left
        simp [lexLe, lt_irrefl, ih]
      · right
        simp [lexLe, lt_irrefl, ih]
    · right
      simp [lexLe, h]

lemma lexLe_trans : ∀ as bs cs : List Char,
    lexLe as bs = true → lexLe bs cs = true → lexLe as cs = true
  | [], _, _ => fun _ _ => rfl
  | _ :: _, [], _ => fun h _ => by simp [lexLe] at h
  | _ :: _, _ :: _, [] => fun _ h => by simp [lexLe] at h
  | a :: as, b :: bs, c :: cs => by
    intro h1 h2
    by_cases hab : a < b
    · by_cases hbc : b < c
      · simp [lexLe, lt_trans hab hbc]
      · by_cases hcb : c < b
        · simp [lexLe, hbc, hcb] at h2
        · have hbc2 : b = c := le_antisymm (not_lt.mp hcb) (not_lt.mp hbc)
          subst hbc2
          simp [lexLe, hab]
    · by_cases hba : b < a
      · simp [lexLe, hab, hba] at h1
      · have hab2 : a = b := le_antisymm (not_lt.mp hba) (not_lt.mp hab)
        subst hab2
        simp only [lexLe, lt_irrefl, if_false] at h1
        by_cases hac : a < c
        · simp [lexLe, hac]
        · by_cases hca : c < a
          · simp [lexLe, hac, hca] at h2
          · have hac2 : a = c := le_antisymm (not_lt.mp hca) (not_lt.mp hac)
            subst hac2
            simp only [lexLe, lt_irrefl, if_false] at h2 ⊢
            exact lexLe_trans as bs cs h1 h2

instance : IsTotal String strLe :=
  ⟨fun a b => lexLe_total a.data b.data⟩

instance : IsTrans String strLe :=
  ⟨fun a b c h1 h2 => lexLe_trans a.data b.data c.data h1 h2⟩

/-- C8: the union grid of `alignStockData` is sorted; every retained
ticker vector has length at least 2; every retained entry is the scan of
the sorted union appending the ticker price exactly at matched
timestamps (`alignRow`); and every input ticker whose scan yields at
least 2 entries is retained. -/
theorem alignStockData_spec (stocksData : List (String × List RawPoint)) :
    List.Sorted strLe (alignUnionTimestamps stocksData) ∧
    (∀ kv ∈ alignStockData stocksData, 2 ≤ kv.2.length) ∧
    (∀ kv ∈ alignStockData stocksData, ∃ kv0 ∈ stocksData,
      kv.1 = kv0.1 ∧ kv.2 = alignRow stocksData kv0.2) ∧
    (∀ kv0 ∈ stocksData, 2 ≤ (alignRow stocksData kv0.2).length →
      (kv0.1, alignRow stocksData kv0.2) ∈ alignStockData stocksData) := by
  refine ⟨List.sorted_insertionSort strLe _, ?_, ?_, ?_⟩
  · intro kv hkv
    unfold alignStockData at hkv
    by_cases h0 : stocksData.length = 0
    · rw [if_pos h0] at hkv
      cases hkv
    · rw [if_neg h0] at hkv
      have hp := List.of_mem_filter hkv
      simpa using hp
  · intro kv hkv
    unfold alignStockData at hkv
    by_cases h0 : stocksData.length = 0
    · rw [if_pos h0] at hkv
      cases hkv
    · rw [if_neg h0] at hkv
      have hm := List.mem_of_mem_filter hkv
      obtain ⟨kv0, hkv0, rfl⟩ := List.mem_map.mp hm
      exact ⟨kv0, hkv0, rfl, rfl⟩
  · intro kv0 hkv0 hlen
    unfold alignStockData
    have h0 : stocksData.length ≠ 0 := by
      intro h
      rw [List.length_eq_zero.mp h] at hkv0
      cases hkv0
    rw [if_neg h0]
    refine List.mem_filter.mpr ⟨?_, by simpa using hlen⟩
    exact List.mem_map.mpr ⟨kv0, hkv0, rfl⟩

theorem alignStockData_spec_witness :
    ("A", [JNum.num 1, JNum.num 2]) ∈ alignStockData twoTickerData ∧
    2 ≤ ([JNum.num 1, JNum.num 2] : List JNum).length :=
  ⟨by decide, (alignStockData_spec twoTickerData).2.1
    ("A", [JNum.num 1, JNum.num 2]) (by decide)⟩

/-! ### Claim C9 -/

/-- C9 counterexample: `alignStockData` (union mode) performs no price
filtering, so the non-finite price `NaN` appears in its output vector,
contradicting the claim that non-finite prices never appear in aligned
output vectors in either mode. -/
theorem alignStockData_keeps_nan :
    alignStockData nanPriceData = [("A", [JNum.nan, JNum.num 1])] ∧
    JNum.nan ∈ ((alignStockData nanPriceData).getD 0 ("", [])).2 :=
  ⟨by decide, by decide⟩

/-- C9 amended: malformed entries never cause an exception (all embedded
functions are total), and in intersection mode (inside
`calculateCorrelationMatrix`) aligned vectors contain only finite
numeric prices; union mode (`alignStockData`) does not filter prices, as
the counterexample shows. -/
theorem alignedVector_finite (data : List (String × List RawPoint))
    (common : List String) (ticker : String) (v : JNum)
    (hv : v ∈ alignedVector data common ticker) : jIsFin v = true :=
  List.of_mem_filter hv

theorem alignedVector_finite_witness :
    JNum.num 3 ∈ alignedVector twoTickerData (commonTimestamps twoTickerData) "B" ∧
    jIsFin (JNum.num 3) = true :=
  ⟨by decide, alignedVector_finite twoTickerData (commonTimestamps twoTickerData)
    "B" (JNum.num 3) (by decide)⟩

end StockCorr
